import Mathlib

/-!
Verification of the gorest HTTP request builder (`gorest.go`).

The development shallowly embeds the request-builder pipeline:
user-supplied parameter sources (`GoValue`), the JSON marshal/unmarshal
round-trip (`decodeGo`, producing `JValue`, the values `json.Unmarshal`
stores in a `map[string]interface\x7b\x7d`), the source-merge (`toMap`),
the FORM value dispatch (`changeMapToURLValues`), URL-encoding
(`encodeValues`, modeling `url.Values.Encode`), request construction
(`RestClient.Request`) and response handling (`RestClient.Receive`).
External collaborators that the specification places out of scope
(the URL library, the JSON library, the HTTP client) are modeled by
small executable stand-ins documented at their definitions.
-/

namespace Gorest

/-- Values a caller can pass as a parameter source or parameter value
(the `interface\x7b\x7d` arguments of `Param` / `ParamStruct`), restricted
to the JSON-marshalable kinds the claims exercise: strings, booleans,
integers, homogeneous or mixed lists, nested string-keyed objects
(structs / maps), and `nil`. -/
inductive GoValue where
  | null : GoValue
  | str (s : String) : GoValue
  | bool (b : Bool) : GoValue
  | int (n : Int) : GoValue
  | list (xs : List GoValue) : GoValue
  | obj (fields : List (String × GoValue)) : GoValue

/-- Values produced by `json.Unmarshal` into `interface\x7b\x7d`:
`nil`, `string`, `bool`, `float64` (every JSON number decodes to a
`float64` because `toMap` does not use `Decoder.UseNumber`),
`[]interface\x7b\x7d` and `map[string]interface\x7b\x7d`.
A `num` holds the exact integer value of the `float64`; every integer
parameter rounds to an integer-valued `float64` (`f64roundInt`), and the
claims only exercise integer-valued numbers. -/
inductive JValue where
  | null : JValue
  | str (s : String) : JValue
  | bool (b : Bool) : JValue
  | num (n : Int) : JValue
  | arr (xs : List JValue) : JValue
  | obj (fields : List (String × JValue)) : JValue

/-- Fueled bit length (the fuel only bounds the recursion; `bitLen`
supplies enough). -/
def bitLenAux : Nat → Nat → Nat
  | 0, _ => 0
  | Nat.succ fuel, n => if n = 0 then 0 else bitLenAux fuel (n / 2) + 1

/-- The number of binary digits of `n` (`0` for `0`). -/
def bitLen (n : Nat) : Nat := bitLenAux n n

/-- Round a natural number to the nearest `float64` (53-bit significand,
ties to even), returned as its exact integer value.  Models the value
`encoding/json` stores when an integer parameter passes through
`json.Marshal` / `json.Unmarshal` into `interface\x7b\x7d`. -/
def f64roundNat (a : Nat) : Nat :=
  if a < 2 ^ 53 then a
  else
    let e := bitLen a - 53
    let q := a / 2 ^ e
    let r := a % 2 ^ e
    let half := 2 ^ (e - 1)
    let q2 := if r < half then q else if half < r then q + 1 else if q % 2 = 0 then q else q + 1
    q2 * 2 ^ e

/-- `f64roundNat` extended to integers; IEEE rounding is sign-symmetric. -/
def f64roundInt (n : Int) : Int :=
  if n < 0 then -(f64roundNat n.natAbs : Int) else (f64roundNat n.natAbs : Int)

mutual

/-- The `json.Marshal` / `json.Unmarshal` round-trip applied to a Go
value: strings and booleans survive unchanged, integers become
`float64` numbers, lists become `[]interface\x7b\x7d`, maps and structs
become `map[string]interface\x7b\x7d`, `nil` becomes JSON null. -/
def decodeGo : GoValue → JValue
  | .null => .null
  | .str s => .str s
  | .bool b => .bool b
  | .int n => .num (f64roundInt n)
  | .list xs => .arr (decodeGoList xs)
  | .obj fs => .obj (decodeGoFields fs)

def decodeGoList : List GoValue → List JValue
  | [] => []
  | x :: xs => decodeGo x :: decodeGoList xs

def decodeGoFields : List (String × GoValue) → List (String × JValue)
  | [] => []
  | (k, v) :: fs => (k, decodeGo v) :: decodeGoFields fs

end

/-- A `map[string]interface\x7b\x7d` as an association list (one entry
per key). -/
def JMap := List (String × JValue)

/-- First-match association lookup. -/
def lookupJ : List (String × JValue) → String → Option JValue
  | [], _ => none
  | (k1, v1) :: rest, k => if k1 = k then some v1 else lookupJ rest k

/-- `jsonValues[k] = v`: overwrite the entry for `k` if present,
otherwise append it. -/
def mapInsert : List (String × JValue) → String → JValue → List (String × JValue)
  | [], k, v => [(k, v)]
  | (k1, v1) :: rest, k, v =>
    if k1 = k then (k, v) :: rest else (k1, v1) :: mapInsert rest k v

/-- Insert every field of one decoded source into the accumulating map
(the inner `for k, v := range val` loop of `toMap`). -/
def insertAll (m : List (String × JValue)) (fs : List (String × JValue)) :
    List (String × JValue) :=
  fs.foldl (fun acc kv => mapInsert acc kv.1 kv.2) m

/-- The flat key/value fields contributed by one parameter source:
`json.Marshal` it, `json.Unmarshal` it into a
`map[string]interface\x7b\x7d`; a source that does not decode to a JSON
object makes the unmarshal fail. -/
def sourceFields (g : GoValue) : Option (List (String × JValue)) :=
  match decodeGo g with
  | .obj fs => some fs
  | _ => none

/-- The value source `g` contributes for key `k` (after collapsing any
duplicate field names the way map insertion does), if any. -/
def sourceLookup (g : GoValue) (k : String) : Option JValue :=
  match sourceFields g with
  | some fs => lookupJ (insertAll [] fs) k
  | none => none

/-- The accumulation loop of `toMap` starting from `acc`. -/
def toMapAux (acc : List (String × JValue)) : List GoValue → Except String (List (String × JValue))
  | [] => .ok acc
  | g :: rest =>
    match sourceFields g with
    | none => .error "json: cannot unmarshal value into Go value of type map[string]interface ..."
    | some fs => toMapAux (insertAll acc fs) rest

/-- `toMap`: merge the ordered parameter sources into one flat
`map[string]interface\x7b\x7d`, later sources overwriting earlier ones
per key. -/
def toMap (params : List GoValue) : Except String (List (String × JValue)) :=
  toMapAux [] params

/-- `url.Values`: a map from key to its ordered list of values.  Modeled
as an association list with one entry per key; `url.Values.Encode` sorts
keys, so the entry order never reaches the output. -/
def Values := List (String × List String)

/-- `url.Values.Add`: append `v` to the list for key `k`. -/
def valuesAdd : List (String × List String) → String → String → List (String × List String)
  | [], k, v => [(k, [v])]
  | (k1, l) :: rest, k, v =>
    if k1 = k then (k1, l ++ [v]) :: rest else (k1, l) :: valuesAdd rest k v

/-- Characters `url.QueryEscape` leaves unescaped. -/
def isUnreservedChar (c : Char) : Bool :=
  (('a' ≤ c && c ≤ 'z') || ('A' ≤ c && c ≤ 'Z') || ('0' ≤ c && c ≤ '9')
    || c = '-' || c = '_' || c = '.' || c = '~')

/-- Uppercase hexadecimal digit, as `net/url` prints percent escapes. -/
def hexDigitChar (n : Nat) : Char :=
  if n < 10 then Char.ofNat (48 + n) else Char.ofNat (55 + n)

/-- UTF-8 encoding of one character, as the byte values Go strings hold. -/
def utf8BytesOfChar (c : Char) : List Nat :=
  let n := c.toNat
  if n < 0x80 then [n]
  else if n < 0x800 then [0xC0 + n / 64, 0x80 + n % 64]
  else if n < 0x10000 then [0xE0 + n / 4096, 0x80 + n / 64 % 64, 0x80 + n % 64]
  else [0xF0 + n / 262144, 0x80 + n / 4096 % 64, 0x80 + n / 64 % 64, 0x80 + n % 64]

/-- `url.QueryEscape` on one character: unreserved characters pass
through, space becomes `+`, everything else is percent-encoded per
UTF-8 byte. -/
def escapeChar (c : Char) : List Char :=
  if isUnreservedChar c then [c]
  else if c = ' ' then ['+']
  else ((utf8BytesOfChar c).map (fun b => ['%', hexDigitChar (b / 16), hexDigitChar (b % 16)])).flatten

/-- `url.QueryEscape`. -/
def queryEscape (s : String) : String :=
  String.mk (s.data.map escapeChar).flatten

/-- Insert one entry into a key-sorted `url.Values` entry list (keys are
unique, so stability is irrelevant); models the `sort.Strings(keys)` in
`url.Values.Encode`. -/
def insertEntry (e : String × List String) : List (String × List String) → List (String × List String)
  | [] => [e]
  | f :: fs => if e.1 ≤ f.1 then e :: f :: fs else f :: insertEntry e fs

/-- Sort `url.Values` entries by key. -/
def sortValues (vs : List (String × List String)) : List (String × List String) :=
  vs.foldr insertEntry []

/-- `url.Values.Encode`: keys in sorted order, one `k=v` pair per value
in per-key order, joined with `&`, both sides query-escaped. -/
def encodeValues (vs : List (String × List String)) : String :=
  String.intercalate "&"
    (((sortValues vs).map
      (fun p => p.2.map (fun v => queryEscape p.1 ++ "=" ++ queryEscape v))).flatten)

/-- `strconv.FormatBool`. -/
def fmtBool (b : Bool) : String := if b then "true" else "false"

/-- `strconv.FormatFloat(v, 102, -1, 64)` (shortest round-trip decimal,
no exponent) on an integer-valued `float64`, which is the only kind of
number this pipeline produces.  For every value reached by the theorems
below (magnitude at most `2 ^ 53`) the shortest round-trip decimal is
the exact integer, so the formatter is its decimal representation. -/
def fmtF64 (v : Int) : String := toString v

/-- The `element.(string)` loop of the `[]interface\x7b\x7d` case whose
first element is a string: add every element, panicking (`none`) when a
later element is not a string (a failed type assertion). -/
def addAllStr (vals : List (String × List String)) (k : String) :
    List JValue → Option (List (String × List String))
  | [] => some vals
  | .str s :: rest => addAllStr (valuesAdd vals k s) k rest
  | _ :: _ => none

/-- The `element.(bool)` loop of the `[]interface\x7b\x7d` case whose
first element is a bool. -/
def addAllBool (vals : List (String × List String)) (k : String) :
    List JValue → Option (List (String × List String))
  | [] => some vals
  | .bool b :: rest => addAllBool (valuesAdd vals k (fmtBool b)) k rest
  | _ :: _ => none

/-- The per-entry loop of `changeMapToURLValues`.  The input map always
comes from `json.Unmarshal` into `map[string]interface\x7b\x7d`, so its
values are only `nil`, `string`, `bool`, `float64`,
`[]interface\x7b\x7d` and `map[string]interface\x7b\x7d`: the source's
`json.Number`, `int` and typed-slice (`[]string`, `[]int`, `[]bool`,
`[]float64`, `[]float32`) cases can never fire on this pipeline and have
no representable input here.  In the `[]interface\x7b\x7d` case the
switch on `val[0]` handles `string`, `bool` and `json.Number` first
elements (`json.Number` again unrepresentable); all other values fall
through to the default case and are dropped silently.  `none` models a
panic of a failed `element.(T)` type assertion inside the element
loops. -/
def changeMapGo (vals : List (String × List String)) :
    List (String × JValue) → Option (List (String × List String))
  | [] => some vals
  | (k, v) :: rest =>
    match v with
    | .str s => changeMapGo (valuesAdd vals k s) rest
    | .bool b => changeMapGo (valuesAdd vals k (fmtBool b)) rest
    | .num m => changeMapGo (valuesAdd vals k (fmtF64 m)) rest
    | .arr [] => changeMapGo vals rest
    | .arr (x :: xs) =>
      match x with
      | .str _ =>
        match addAllStr vals k (x :: xs) with
        | none => none
        | some vals2 => changeMapGo vals2 rest
      | .bool _ =>
        match addAllBool vals k (x :: xs) with
        | none => none
        | some vals2 => changeMapGo vals2 rest
      | _ => changeMapGo vals rest
    | .obj _ => changeMapGo vals rest
    | .null => changeMapGo vals rest

/-- `changeMapToURLValues`. -/
def changeMapToURLValues (data : List (String × JValue)) : Option (List (String × List String)) :=
  changeMapGo [] data

/-- Outcome of running a piece of Go code: a value, a returned error, or
a runtime panic. -/
inductive Outcome (α : Type) where
  | ok (a : α) : Outcome α
  | err (msg : String) : Outcome α
  | panics : Outcome α
deriving DecidableEq

/-- `formSting`: merge the sources and URL-encode the resulting map. -/
def formSting (params : List GoValue) : Outcome String :=
  match toMap params with
  | .error e => .err e
  | .ok values =>
    match changeMapToURLValues values with
    | none => .panics
    | some vs => .ok (encodeValues vs)

/-- Minimal JSON string escaping (quote and backslash); sufficient for
the values exercised here. -/
def jsonEscape (s : String) : String :=
  String.mk ((s.data.map (fun c => if c = '"' || c = '\\' then ['\\', c] else [c])).flatten)

/-- Insert a rendered field into a list kept sorted by key
(`json.Marshal` prints map keys in sorted order). -/
def insertRendered (e : String × String) : List (String × String) → List (String × String)
  | [] => [e]
  | f :: fs => if e.1 ≤ f.1 then e :: f :: fs else f :: insertRendered e fs

mutual

/-- `json.Marshal` of an `interface\x7b\x7d` value decoded by
`json.Unmarshal` (numbers are integer-valued `float64`, printed without
a fractional part, as `encoding/json` prints them). -/
def renderJ : JValue → String
  | .null => "null"
  | .str s => "\"" ++ jsonEscape s ++ "\""
  | .bool b => fmtBool b
  | .num n => toString n
  | .arr xs => "[" ++ String.intercalate "," (renderJList xs) ++ "]"
  | .obj fs => "\x7b" ++ String.intercalate "," ((renderJFieldsSorted fs).map Prod.snd) ++ "\x7d"

def renderJList : List JValue → List String
  | [] => []
  | x :: xs => renderJ x :: renderJList xs

/-- Render each field and keep the rendered fields sorted by key. -/
def renderJFieldsSorted : List (String × JValue) → List (String × String)
  | [] => []
  | (k, v) :: fs =>
    insertRendered (k, "\"" ++ jsonEscape k ++ "\":" ++ renderJ v) (renderJFieldsSorted fs)

end

/-- `jsonSting`: merge the sources and JSON-encode the resulting map
(`json.Marshal` of a `map[string]interface\x7b\x7d` of unmarshal-decoded
values cannot fail). -/
def jsonSting (params : List GoValue) : Outcome String :=
  match toMap params with
  | .error e => .err e
  | .ok values => .ok (renderJ (.obj values))

/-- A parsed `net/url.URL` (the components this package touches). -/
structure URL where
  scheme : String
  host : String
  path : String
  rawQuery : String
  fragment : String
deriving DecidableEq

/-- `url.Parse` rejects URLs holding ASCII control characters. -/
def hasCtlChar (s : String) : Bool :=
  s.data.any (fun c => c.toNat < 0x20 || c.toNat = 0x7f)

/-- Split at the first occurrence of `c`: the part before it and, when
found, the part after it. -/
def splitOnFirst (c : Char) : List Char → List Char × Option (List Char)
  | [] => ([], none)
  | x :: xs =>
    if x = c then ([], some xs)
    else
      let p := splitOnFirst c xs
      (x :: p.1, p.2)

/-- Find a `://` separator: the scheme before it and the rest after. -/
def findSchemeSep : List Char → Option (List Char × List Char)
  | [] => none
  | ':' :: '/' :: '/' :: rest => some ([], rest)
  | c :: cs =>
    match findSchemeSep cs with
    | none => none
    | some p => some (c :: p.1, p.2)

/-- Models the external `url.Parse` collaborator: fails on ASCII control
characters (as `net/url` does), otherwise splits off fragment, query,
scheme and host.  The claims depend on whether parsing fails and on the
query component, not on the finer points of RFC 3986. -/
def parseURL (s : String) : Option URL :=
  if hasCtlChar s then none
  else
    let bf := splitOnFirst '#' s.data
    let bq := splitOnFirst '?' bf.1
    let frag := (bf.2.map String.mk).getD ""
    let qry := (bq.2.map String.mk).getD ""
    match findSchemeSep bq.1 with
    | some p =>
      let hp := splitOnFirst '/' p.2
      let path := match hp.2 with
        | some rest => String.mk ('/' :: rest)
        | none => ""
      some ⟨String.mk p.1, String.mk hp.1, path, qry, frag⟩
    | none => some ⟨"", "", String.mk bq.1, qry, frag⟩

/-- The directory part of a path: everything up to and including the
last slash. -/
def dirOf (path : String) : String :=
  if path.data.contains '/' then
    String.mk ((((splitOnFirst '/' path.data.reverse).2.getD []).reverse) ++ ['/'])
  else ""

/-- Models the external `url.URL.ResolveReference` collaborator
(RFC 3986 reference resolution; dot-segment normalization omitted — no
claim depends on it). -/
def resolveReference (b ref : URL) : URL :=
  if ref.scheme ≠ "" then ref
  else if ref.host ≠ "" then { ref with scheme := b.scheme }
  else if ref.path = "" then
    { b with
      rawQuery := if ref.rawQuery ≠ "" then ref.rawQuery else b.rawQuery
      fragment := ref.fragment }
  else if ref.path.data.headD ' ' = '/' then
    ⟨b.scheme, b.host, ref.path, ref.rawQuery, ref.fragment⟩
  else
    ⟨b.scheme, b.host, dirOf b.path ++ ref.path, ref.rawQuery, ref.fragment⟩

/-- Re-serialize a URL (`url.URL.String`). -/
def URL.toStr (u : URL) : String :=
  (if u.scheme ≠ "" then u.scheme ++ "://" else "") ++ u.host ++ u.path
    ++ (if u.rawQuery ≠ "" then "?" ++ u.rawQuery else "")
    ++ (if u.fragment ≠ "" then "#" ++ u.fragment else "")

/-- Go header-field token characters (`validHeaderFieldByte`). -/
def isHeaderTokenChar (c : Char) : Bool :=
  c.isAlphanum || c = '!' || c = '#' || c = '$' || c = '%' || c = '&'
    || c = Char.ofNat 39 || c = '*' || c = '+' || c = '-' || c = '.'
    || c = '^' || c = '_' || c = Char.ofNat 96 || c = '|' || c = '~'

/-- Capitalize the first letter and each letter after a hyphen,
lowercase the rest. -/
def canonicalChars : Bool → List Char → List Char
  | _, [] => []
  | upper, c :: cs =>
    (if upper then c.toUpper else c.toLower) :: canonicalChars (c = '-') cs

/-- `textproto.CanonicalMIMEHeaderKey`: canonicalize a valid header key,
return invalid keys unchanged. -/
def canonicalKey (s : String) : String :=
  if s.data.all isHeaderTokenChar then String.mk (canonicalChars true s.data) else s

/-- A `http.Header`: canonical key to ordered values. -/
def HeaderMap := List (String × List String)

/-- `http.Header.Add`: canonicalize the key and append the value. -/
def headerAdd (h : List (String × List String)) (k v : String) : List (String × List String) :=
  valuesAdd h (canonicalKey k) v

/-- Replace the entry for `k` by the single value `v`, or append it. -/
def valuesSet : List (String × List String) → String → String → List (String × List String)
  | [], k, v => [(k, [v])]
  | (k1, l) :: rest, k, v =>
    if k1 = k then (k1, [v]) :: rest else (k1, l) :: valuesSet rest k v

/-- `http.Header.Set`: canonicalize the key and replace its values. -/
def headerSet (h : List (String × List String)) (k v : String) : List (String × List String) :=
  valuesSet h (canonicalKey k) v

/-- The base64 alphabet of `base64.StdEncoding`. -/
def b64char (n : Nat) : Char :=
  "ABCDEFGHIJKLMNOPQRSTUVWXYZabcdefghijklmnopqrstuvwxyz0123456789+/".data.getD n '='

/-- Standard base64, three input bytes to four output characters, padded
with `=`. -/
def base64Chunks : List Nat → List Char
  | b0 :: b1 :: b2 :: rest =>
    let w := b0 * 65536 + b1 * 256 + b2
    b64char (w / 262144) :: b64char (w / 4096 % 64) :: b64char (w / 64 % 64)
      :: b64char (w % 64) :: base64Chunks rest
  | [b0, b1] =>
    let w := b0 * 65536 + b1 * 256
    [b64char (w / 262144), b64char (w / 4096 % 64), b64char (w / 64 % 64), '=']
  | [b0] =>
    let w := b0 * 65536
    [b64char (w / 262144), b64char (w / 4096 % 64), '=', '=']
  | [] => []

/-- The UTF-8 bytes of a string. -/
def utf8Encode (s : String) : List Nat :=
  (s.data.map utf8BytesOfChar).flatten

/-- `basicAuth`: base64 of `username:password`. -/
def basicAuth (username password : String) : String :=
  String.mk (base64Chunks (utf8Encode (username ++ ":" ++ password)))

/-- The serializer a builder holds: `formSting` or `jsonSting`.  The Go
field is a function value; it is defunctionalized to this closed enum
(the only functions ever assigned to it), with `Option` for the nil
function a clone carries. -/
inductive SerialMode where
  | form : SerialMode
  | json : SerialMode
deriving DecidableEq

/-- A response from the `Doer` collaborator: status code and the bytes
`ioutil.ReadAll` yields from the body. -/
structure HttpResponse where
  status : Nat
  body : String

/-- An outbound `http.Request` as this package builds it: method, parsed
URL (query included), optional body string, headers. -/
structure HttpRequest where
  method : String
  url : URL
  body : Option String
  header : List (String × List String)

/-- The injected `Doer` executor capability. -/
def DoerFn := HttpRequest → Except String HttpResponse

/-- Models `http.DefaultClient`, whose behavior is environment
dependent; no claim executes it, so it stands for a transport failure. -/
def httpDefaultClient : DoerFn := fun _ => .error "network unavailable"

/-- The `RestClient` builder state. -/
structure RestClient where
  httpClient : DoerFn
  method : String
  rawURL : String
  header : List (String × List String)
  data : List GoValue
  serialize : Option SerialMode

/-- The package-level `New`: default client, method GET, empty header
and data, FORM serializer. -/
def New : RestClient :=
  { httpClient := httpDefaultClient
    method := "GET"
    rawURL := ""
    header := []
    data := []
    serialize := some .form }

/-- The instance-level `New` (clone): copies the client reference,
method, raw URL, header contents and data list.  The source omits the
`serialize` field from the copied literal, so the clone's serializer is
the nil function (`none`). -/
def RestClient.New (s : RestClient) : RestClient :=
  { httpClient := s.httpClient
    method := s.method
    rawURL := s.rawURL
    header := s.header
    data := s.data
    serialize := none }

/-- `JSON()`. -/
def RestClient.JSON (s : RestClient) : RestClient :=
  { s with serialize := some .json }

/-- `FORM()`. -/
def RestClient.FORM (s : RestClient) : RestClient :=
  { s with serialize := some .form }

/-- `Doer`: set the executor, falling back to the default client on
nil. -/
def RestClient.Doer (s : RestClient) (doer : Option DoerFn) : RestClient :=
  match doer with
  | none => { s with httpClient := httpDefaultClient }
  | some d => { s with httpClient := d }

/-- `Client`: like `Doer` for a plain `*http.Client`. -/
def RestClient.Client (s : RestClient) (httpClient : Option DoerFn) : RestClient :=
  match httpClient with
  | none => s.Doer (some httpDefaultClient)
  | some c => s.Doer (some c)

/-- `Base`. -/
def RestClient.Base (s : RestClient) (rawURL : String) : RestClient :=
  { s with rawURL := rawURL }

/-- `Path`: resolve the given reference against the current raw URL; if
either fails to parse, leave the raw URL unmodified. -/
def RestClient.Path (s : RestClient) (path : String) : RestClient :=
  match parseURL s.rawURL, parseURL path with
  | some baseURL, some pathURL =>
    { s with rawURL := (resolveReference baseURL pathURL).toStr }
  | _, _ => s

/-- `Head`. -/
def RestClient.Head (s : RestClient) (pathURL : String) : RestClient :=
  RestClient.Path { s with method := "HEAD" } pathURL

/-- `Get`. -/
def RestClient.Get (s : RestClient) (pathURL : String) : RestClient :=
  RestClient.Path { s with method := "GET" } pathURL

/-- `Post`. -/
def RestClient.Post (s : RestClient) (pathURL : String) : RestClient :=
  RestClient.Path { s with method := "POST" } pathURL

/-- `Put`. -/
def RestClient.Put (s : RestClient) (pathURL : String) : RestClient :=
  RestClient.Path { s with method := "PUT" } pathURL

/-- `Patch`. -/
def RestClient.Patch (s : RestClient) (pathURL : String) : RestClient :=
  RestClient.Path { s with method := "PATCH" } pathURL

/-- `Delete`. -/
def RestClient.Delete (s : RestClient) (pathURL : String) : RestClient :=
  RestClient.Path { s with method := "DELETE" } pathURL

/-- `Add`. -/
def RestClient.Add (s : RestClient) (key value : String) : RestClient :=
  { s with header := headerAdd s.header key value }

/-- `Set`. -/
def RestClient.Set (s : RestClient) (key value : String) : RestClient :=
  { s with header := headerSet s.header key value }

/-- `SetBasicAuth`. -/
def RestClient.SetBasicAuth (s : RestClient) (username password : String) : RestClient :=
  s.Set "Authorization" ("Basic " ++ basicAuth username password)

/-- `ParamStruct`: append a structured source, ignored if nil. -/
def RestClient.ParamStruct (s : RestClient) (data : GoValue) : RestClient :=
  match data with
  | .null => s
  | d => { s with data := s.data ++ [d] }

/-- `Param`: append the single-pair source
`map[string]interface\x7b\x7d\x7bkey: value\x7d`. -/
def RestClient.Param (s : RestClient) (key : String) (value : GoValue) : RestClient :=
  { s with data := s.data ++ [GoValue.obj [(key, value)]] }

/-- Run `s.serialize(s.data...)`: a nil serializer (clone) is a nil
function call, a runtime panic. -/
def serializeRun (s : RestClient) : Outcome String :=
  match s.serialize with
  | none => .panics
  | some .form => formSting s.data
  | some .json => jsonSting s.data

/-- `addHeaders(req, header)`: add every stored pair onto the fresh
request's headers. -/
def addHeaders (reqHeader : List (String × List String)) (h : List (String × List String)) :
    List (String × List String) :=
  h.foldl (fun acc kv => kv.2.foldl (fun acc2 v => headerAdd acc2 kv.1 v) acc) reqHeader

/-- `Request`: parse the raw URL; for `GET` attach the serialized string
as the URL's query and send no body; for `HEAD`, `POST`, `PUT`, `PATCH`,
`DELETE` send the serialized string as the body with the URL untouched;
other methods are an error.  `http.NewRequest` re-parses
`reqURL.String()`, which `net/url` guarantees round-trips; it is modeled
as the identity on the structured URL. -/
def RestClient.Request (s : RestClient) : Outcome HttpRequest :=
  match parseURL s.rawURL with
  | none => .err "parse URL error"
  | some reqURL =>
    if s.method = "GET" then
      match serializeRun s with
      | .panics => .panics
      | .err e => .err e
      | .ok str =>
        .ok ⟨s.method, { reqURL with rawQuery := str }, none, addHeaders [] s.header⟩
    else if s.method = "HEAD" || s.method = "POST" || s.method = "PUT"
        || s.method = "PATCH" || s.method = "DELETE" then
      match serializeRun s with
      | .panics => .panics
      | .err e => .err e
      | .ok str =>
        .ok ⟨s.method, reqURL, some str, addHeaders [] s.header⟩
    else
      .err ("unknown method: [" ++ s.method ++ "]")

/-- The left and right brace characters, written by code point. -/
def lbraceChar : Char := Char.ofNat 123

def rbraceChar : Char := Char.ofNat 125

/-- Skip JSON whitespace. -/
def skipWs : List Char → List Char
  | c :: cs =>
    if c = ' ' || c = '\t' || c = '\n' || c = '\r' then skipWs cs else c :: cs
  | [] => []

/-- Parse the remainder of a JSON string literal after the opening
quote.  Escape sequences are outside this model's JSON fragment. -/
def parseStrAux : List Char → List Char → Option (String × List Char)
  | [], _ => none
  | c :: cs, acc =>
    if c = '"' then some (String.mk acc.reverse, cs)
    else if c = '\\' then none
    else parseStrAux cs (c :: acc)

/-- Split a leading run of decimal digits. -/
def takeDigits : List Char → List Char × List Char
  | [] => ([], [])
  | c :: cs =>
    if c.isDigit then
      let p := takeDigits cs
      (c :: p.1, p.2)
    else ([], c :: cs)

def digitsToNat (ds : List Char) : Nat :=
  ds.foldl (fun a c => a * 10 + (c.toNat - 48)) 0

mutual

/-- A recursive-descent parser for the JSON fragment this model's
collaborator handles (the shapes the specification exercises): strings
without escapes, integer numbers, booleans, null, arrays and objects.
Models `json.Unmarshal` into `interface\x7b\x7d`.  Fuel bounds the
recursion; `jsonUnmarshal` supplies more fuel than any input can
consume. -/
def parseJV : Nat → List Char → Option (JValue × List Char)
  | 0, _ => none
  | Nat.succ fuel, cs0 =>
    match skipWs cs0 with
    | [] => none
    | c :: rest =>
      if c = '"' then
        match parseStrAux rest [] with
        | none => none
        | some p => some (JValue.str p.1, p.2)
      else if c = 't' then
        match rest with
        | 'r' :: 'u' :: 'e' :: r => some (JValue.bool true, r)
        | _ => none
      else if c = 'f' then
        match rest with
        | 'a' :: 'l' :: 's' :: 'e' :: r => some (JValue.bool false, r)
        | _ => none
      else if c = 'n' then
        match rest with
        | 'u' :: 'l' :: 'l' :: r => some (JValue.null, r)
        | _ => none
      else if c = '[' then
        match skipWs rest with
        | ']' :: r2 => some (JValue.arr [], r2)
        | r2 =>
          match parseItems fuel r2 with
          | none => none
          | some p => some (JValue.arr p.1, p.2)
      else if c = lbraceChar then
        match skipWs rest with
        | [] => none
        | q :: r2 =>
          if q = rbraceChar then some (JValue.obj [], r2)
          else
            match parseMembers fuel (q :: r2) with
            | none => none
            | some p => some (JValue.obj p.1, p.2)
      else if c = '-' || c.isDigit then
        let neg := c = '-'
        let csn := if neg then rest else c :: rest
        match takeDigits csn with
        | ([], _) => none
        | (ds, r) =>
          let v : Int := digitsToNat ds
          some (JValue.num (if neg then -v else v), r)
      else none

/-- Array elements: one value, then `,` and more or `]`. -/
def parseItems : Nat → List Char → Option (List JValue × List Char)
  | 0, _ => none
  | Nat.succ fuel, cs =>
    match parseJV fuel cs with
    | none => none
    | some (v, r) =>
      match skipWs r with
      | ',' :: r2 =>
        match parseItems fuel r2 with
        | none => none
        | some p => some (v :: p.1, p.2)
      | ']' :: r2 => some ([v], r2)
      | _ => none

/-- Object members: a string key, `:`, a value, then `,` and more or a
closing brace. -/
def parseMembers : Nat → List Char → Option (List (String × JValue) × List Char)
  | 0, _ => none
  | Nat.succ fuel, cs =>
    match skipWs cs with
    | [] => none
    | c :: r =>
      if c = '"' then
        match parseStrAux r [] with
        | none => none
        | some (k, r1) =>
          match skipWs r1 with
          | ':' :: r2 =>
            match parseJV fuel r2 with
            | none => none
            | some (v, r3) =>
              match skipWs r3 with
              | ',' :: r4 =>
                match parseMembers fuel r4 with
                | none => none
                | some p => some ((k, v) :: p.1, p.2)
              | q :: r4 => if q = rbraceChar then some ([(k, v)], r4) else none
              | [] => none
          | _ => none
      else none

end

/-- `json.Unmarshal(body, &v)` for an `interface\x7b\x7d` destination:
parse the whole body, rejecting trailing garbage. -/
def jsonUnmarshal (s : String) : Option JValue :=
  match parseJV (s.data.length + 2) s.data with
  | some (v, r) => if skipWs r = [] then some v else none
  | none => none

/-- The static shape of a caller-supplied JSON destination (the type
the caller's pointer has): anything (`interface\x7b\x7d` / map), a
number, string or boolean field, or a struct with typed fields (fields
absent from the body keep their zero value, extra body fields are
ignored, as `encoding/json` does). -/
inductive JShape where
  | anyV : JShape
  | numV : JShape
  | strV : JShape
  | boolV : JShape
  | objV (fields : List (String × JShape)) : JShape

mutual

/-- Whether a decoded JSON value fits a destination shape (whether
`json.Unmarshal` into a destination of that shape succeeds). -/
def matchesShape : JShape → JValue → Bool
  | .anyV, _ => true
  | .numV, v =>
    match v with
    | .num _ => true
    | .null => true
    | _ => false
  | .strV, v =>
    match v with
    | .str _ => true
    | .null => true
    | _ => false
  | .boolV, v =>
    match v with
    | .bool _ => true
    | .null => true
    | _ => false
  | .objV fs, v =>
    match v with
    | .obj kvs => matchesFields fs kvs
    | .null => true
    | _ => false

def matchesFields : List (String × JShape) → List (String × JValue) → Bool
  | [], _ => true
  | (k, sh) :: rest, kvs =>
    (match lookupJ kvs k with
     | some v => matchesShape sh v
     | none => true)
    && matchesFields rest kvs

end

/-- The message of the decode error `Receive` wraps around a
`json.Unmarshal` failure; it carries the raw body. -/
def decodeErrMsg (body : String) : String :=
  "parse message body err: json unmarshal error, message: " ++ body

/-- `Receive`: build the request, dispatch it through the stored
executor, read the body; any status other than 200 is an error whose
message is the raw body; otherwise decode into the destination when one
was supplied.  The result carries the value decoded into the
destination.  The variadic `statusCode` out-pointer only copies
`resp.StatusCode` to the caller and never affects control flow; no
claim concerns it, so it is not modeled. -/
def RestClient.Receive (s : RestClient) (value : Option JShape) : Outcome (Option JValue) :=
  match s.Request with
  | .panics => .panics
  | .err e => .err e
  | .ok req =>
    match s.httpClient req with
    | .error e => .err e
    | .ok resp =>
      if resp.status ≠ 200 then .err resp.body
      else
        match value with
        | none => .ok none
        | some sh =>
          match jsonUnmarshal resp.body with
          | none => .err (decodeErrMsg resp.body)
          | some v =>
            if matchesShape sh v then .ok (some v)
            else .err (decodeErrMsg resp.body)

/-- Substring test, used to state that an error message carries a given
text. -/
def containsSub (s pat : String) : Bool :=
  (List.range (s.data.length + 1)).any
    (fun i => List.isPrefixOf pat.data (s.data.drop i))

/-!
Aliasing model.  The pure `RestClient` above gives the value-level
semantics of each method; it cannot express which parts of a clone are
shared with its original, which is exactly what the clone-independence
claim is about.  The store model below makes the Go references explicit:
header maps live in a store and builders hold an index into it (a Go map
reference), while the method, raw URL and data-slice fields live inside
the builder object itself (appending to `s.data` rebinds the struct
field, never a shared slice, and the clone copies the elements into a
fresh array).  The executor is identified by an opaque id so that
sharing it is observable.  Per-slice backing-array aliasing after
`headerCopy[k] = v` is below the observational level modeled here: Go
does not specify append's reallocation behavior. -/

/-- A builder object in the store. -/
structure ClientObj where
  doerId : Nat
  method : String
  rawURL : String
  headerRef : Nat
  data : List GoValue
  serMode : Option SerialMode

/-- The heap: allocated builder objects and allocated header maps. -/
structure Store where
  clients : List ClientObj
  headerMaps : List (List (String × List String))

def defClientObj : ClientObj := ⟨0, "", "", 0, [], none⟩

/-- The builder object at index `i`. -/
def clientOf (st : Store) (i : Nat) : ClientObj :=
  st.clients.getD i defClientObj

/-- The header map builder `i` references. -/
def headerOf (st : Store) (i : Nat) : List (String × List String) :=
  st.headerMaps.getD (clientOf st i).headerRef []

/-- The parameter-source list of builder `i`. -/
def dataOf (st : Store) (i : Nat) : List GoValue :=
  (clientOf st i).data

/-- What a caller can observe of builder `i`: its header multimap and
its parameter-source list. -/
def observe (st : Store) (i : Nat) : List (String × List String) × List GoValue :=
  (headerOf st i, dataOf st i)

/-- The package-level `New` in the store model: allocate a fresh builder
with a fresh empty header map, defaulting to GET and FORM. -/
def Store.allocNew (st : Store) (doerId : Nat) : Store × Nat :=
  (⟨st.clients ++ [⟨doerId, "GET", "", st.headerMaps.length, [], some .form⟩],
    st.headerMaps ++ [[]]⟩,
   st.clients.length)

/-- The instance-level `New` in the store model: allocate a fresh header
map holding a copy of the original's entries and a fresh builder that
shares the executor id, copies method, raw URL and data, and (as in the
source) leaves the serializer nil. -/
def Store.cloneNew (st : Store) (i : Nat) : Store × Nat :=
  let c := clientOf st i
  (⟨st.clients ++ [⟨c.doerId, c.method, c.rawURL, st.headerMaps.length, c.data, none⟩],
    st.headerMaps ++ [headerOf st i]⟩,
   st.clients.length)

/-- The store after `Store.cloneNew st i`. -/
def cloneSt (st : Store) (i : Nat) : Store := (Store.cloneNew st i).1

/-- The index of the clone made by `Store.cloneNew st i`. -/
def cloneIx (st : Store) (i : Nat) : Nat := (Store.cloneNew st i).2

/-- Apply `f` to the header map at reference `r`. -/
def updHeaderMap (st : Store) (r : Nat)
    (f : List (String × List String) → List (String × List String)) : Store :=
  { st with headerMaps := st.headerMaps.set r (f (st.headerMaps.getD r [])) }

/-- `Add` in the store model: mutate the header map builder `i`
references. -/
def Store.Add (st : Store) (i : Nat) (key value : String) : Store :=
  updHeaderMap st (clientOf st i).headerRef (fun h => headerAdd h key value)

/-- `Set` in the store model. -/
def Store.Set (st : Store) (i : Nat) (key value : String) : Store :=
  updHeaderMap st (clientOf st i).headerRef (fun h => headerSet h key value)

/-- `SetBasicAuth` in the store model. -/
def Store.SetBasicAuth (st : Store) (i : Nat) (username password : String) : Store :=
  Store.Set st i "Authorization" ("Basic " ++ basicAuth username password)

/-- `Param` in the store model: rebind builder `i`'s data field. -/
def Store.Param (st : Store) (i : Nat) (key : String) (value : GoValue) : Store :=
  { st with
    clients := st.clients.set i
      { clientOf st i with data := (clientOf st i).data ++ [GoValue.obj [(key, value)]] } }

/-- `ParamStruct` in the store model. -/
def Store.ParamStruct (st : Store) (i : Nat) (data : GoValue) : Store :=
  match data with
  | .null => st
  | d =>
    { st with
      clients := st.clients.set i
        { clientOf st i with data := (clientOf st i).data ++ [d] } }

/-- A one-builder store for concrete instantiations. -/
def store0 : Store := (Store.allocNew ⟨[], []⟩ 7).1

/-- A mock executor answering 404 with a JSON body. -/
def doer404 : DoerFn :=
  fun _ => .ok ⟨404, "\x7b\"msg\":\"nope\"\x7d"⟩

/-- A mock executor answering 200 with the body `\x7b"id":5\x7d`. -/
def doer200 : DoerFn :=
  fun _ => .ok ⟨200, "\x7b\"id\":5\x7d"⟩

/-- A builder wired to the 404 mock. -/
def client404 : RestClient := New.Doer (some doer404)

/-- A builder wired to the 200 mock. -/
def client200 : RestClient := New.Doer (some doer200)

/-- The shape of the destination struct of the specification's 200
example: one numeric field `id`. -/
def idShape : JShape := .objV [("id", .numV)]

/-- Fold `Param` over a list of pairs. -/
def addParams (s : RestClient) (kvs : List (String × GoValue)) : RestClient :=
  kvs.foldl (fun b kv => b.Param kv.1 kv.2) s

/-! ## Theorems -/

theorem lookupJ_mapInsert_self (m : List (String × JValue)) (k : String) (v : JValue) :
    lookupJ (mapInsert m k v) k = some v := by
  induction m with
  | nil => simp [mapInsert, lookupJ]
  | cons hd tl ih =>
    obtain ⟨k1, v1⟩ := hd
    by_cases h : k1 = k <;> simp [mapInsert, lookupJ, h, ih]

theorem lookupJ_mapInsert_ne (m : List (String × JValue)) (k1 k : String) (v : JValue)
    (h : k1 ≠ k) : lookupJ (mapInsert m k1 v) k = lookupJ m k := by
  induction m with
  | nil => simp [mapInsert, lookupJ, h]
  | cons hd tl ih =>
    obtain ⟨k2, v2⟩ := hd
    by_cases h2 : k2 = k1
    · subst h2
      simp [mapInsert, lookupJ, h, Ne.symm h]
    · by_cases h3 : k2 = k <;> simp [mapInsert, lookupJ, h2, h3, Ne.symm h, ih]

theorem lookupJ_insertAll (m : List (String × JValue)) (fs : List (String × JValue))
    (k : String) :
    lookupJ (insertAll m fs) k =
      match lookupJ (insertAll [] fs) k with
      | some v => some v
      | none => lookupJ m k := by
  induction fs generalizing m with
  | nil => simp [insertAll, lookupJ]
  | cons hd tl ih =>
    obtain ⟨k1, v1⟩ := hd
    show lookupJ (insertAll (mapInsert m k1 v1) tl) k = _
    rw [ih (mapInsert m k1 v1)]
    have h2 : insertAll [] ((k1, v1) :: tl) = insertAll (mapInsert [] k1 v1) tl := rfl
    rw [h2, ih (mapInsert [] k1 v1)]
    rcases h3 : lookupJ (insertAll [] tl) k with _ | w
    · by_cases h4 : k1 = k
      · subst h4
        simp [lookupJ_mapInsert_self]
      · simp [lookupJ_mapInsert_ne _ _ _ _ h4, lookupJ, h4]
    · simp

theorem toMapAux_append (acc : List (String × JValue)) (xs ys : List GoValue) :
    toMapAux acc (xs ++ ys) =
      match toMapAux acc xs with
      | .ok m => toMapAux m ys
      | .error e => .error e := by
  induction xs generalizing acc with
  | nil => simp [toMapAux]
  | cons g rest ih =>
    show toMapAux acc (g :: (rest ++ ys)) = _
    rcases h : sourceFields g with _ | fs <;> simp [toMapAux, h, ih]

theorem toMapAux_untouched_key (post : List GoValue) (acc m : List (String × JValue))
    (k : String) (hpost : ∀ p ∈ post, sourceLookup p k = none)
    (h : toMapAux acc post = .ok m) :
    lookupJ m k = lookupJ acc k := by
  induction post generalizing acc with
  | nil =>
    simp [toMapAux] at h
    subst h
    rfl
  | cons g rest ih =>
    rcases hg : sourceFields g with _ | fs
    · simp [toMapAux, hg] at h
    · simp only [toMapAux, hg] at h
      have hk : lookupJ (insertAll [] fs) k = none := by
        have := hpost g (by simp)
        simpa [sourceLookup, hg] using this
      have step : lookupJ (insertAll acc fs) k = lookupJ acc k := by
        rw [lookupJ_insertAll, hk]
      rw [ih (insertAll acc fs) (fun p hp => hpost p (by simp [hp])) h, step]

/-- C1: in the flat map built by `toMap`, a key contributed by several
sources gets its value from the latest source in list order that
contributes it: decomposing the source list around that source, with no
later source contributing the key, the merged map holds that source's
value for the key. -/
theorem toMap_last_write_wins (pre post : List GoValue) (src : GoValue)
    (m : List (String × JValue)) (k : String) (v : JValue)
    (hm : toMap (pre ++ src :: post) = .ok m)
    (hsrc : sourceLookup src k = some v)
    (hpost : ∀ p ∈ post, sourceLookup p k = none) :
    lookupJ m k = some v := by
  rcases hfs : sourceFields src with _ | fs
  · simp [sourceLookup, hfs] at hsrc
  · unfold toMap at hm
    rw [toMapAux_append] at hm
    rcases hpre : toMapAux [] pre with e | m1
    · simp [hpre] at hm
    · simp only [hpre] at hm
      simp only [toMapAux, hfs] at hm
      have hsrc2 : lookupJ (insertAll [] fs) k = some v := by
        simpa [sourceLookup, hfs] using hsrc
      have hmid : lookupJ (insertAll m1 fs) k = some v := by
        rw [lookupJ_insertAll, hsrc2]
      rw [toMapAux_untouched_key post (insertAll m1 fs) m k hpost hm, hmid]

/-- Witness for C1 at a concrete source list: the key `a` appears in the
first two sources and the merged map holds the second source's value. -/
theorem toMap_last_write_wins_witness :
    lookupJ [("a", JValue.str "2"), ("b", JValue.bool true)] "a" = some (JValue.str "2") :=
  toMap_last_write_wins
    [GoValue.obj [("a", GoValue.str "1")]]
    [GoValue.obj [("b", GoValue.bool true)]]
    (GoValue.obj [("a", GoValue.str "2")])
    [("a", JValue.str "2"), ("b", JValue.bool true)]
    "a" (JValue.str "2") rfl rfl
    (by
      intro p hp
      rw [List.mem_singleton] at hp
      subst hp
      rfl)

/-- C2 counterexample: the claim says a built `HEAD` request carries no
body, but `Request` groups `HEAD` with the body-bearing methods: for a
concrete HEAD builder with one parameter, the built request's body is
`some "a=1"`, not `none`. -/
theorem request_head_body_counterexample :
    ¬ (∀ (s : RestClient) (req : HttpRequest),
        RestClient.Request s = .ok req → s.method = "HEAD" → req.body = none) := by
  intro h
  have h2 := h (RestClient.Param (RestClient.Head New "") "a" (GoValue.str "1"))
    ⟨"HEAD", ⟨"", "", "", "", ""⟩, some "a=1", []⟩ rfl rfl
  simp at h2

/-- C2 amended: for every built request, if the method is `GET` the
serialized string is the URL's query and there is no body; if the method
is `HEAD`, `POST`, `PUT`, `PATCH` or `DELETE` the serialized string is
the body and the URL (query included) is exactly the parsed raw URL,
untouched by the serializer. -/
theorem request_method_packaging (s : RestClient) (u : URL) (str : String)
    (hu : parseURL s.rawURL = some u) (hs : serializeRun s = .ok str) :
    (s.method = "GET" →
      RestClient.Request s =
        .ok ⟨"GET", { u with rawQuery := str }, none, addHeaders [] s.header⟩)
    ∧ (∀ m ∈ (["HEAD", "POST", "PUT", "PATCH", "DELETE"] : List String), s.method = m →
      RestClient.Request s = .ok ⟨m, u, some str, addHeaders [] s.header⟩) := by
  constructor
  · intro h
    simp [RestClient.Request, hu, h, hs]
  · intro m hm h
    fin_cases hm <;> simp_all [RestClient.Request, hu, hs]

/-- Witness for the amended C2 at a concrete GET builder. -/
theorem request_method_packaging_witness :
    RestClient.Request (RestClient.Param New "a" (GoValue.str "1")) =
      .ok ⟨"GET", ⟨"", "", "", "a=1", ""⟩, none, []⟩ :=
  (request_method_packaging (RestClient.Param New "a" (GoValue.str "1"))
    ⟨"", "", "", "", ""⟩ "a=1" rfl rfl).1 rfl

/-- C3: the claim that no public operation panics is broken by the
clone: the instance-level `New` omits the `serialize` field, so its
result holds a nil serializer function, and `Request` on a fresh clone
dereferences it — a runtime panic, not a returned error. -/
theorem clone_request_nil_serializer_panics :
    RestClient.Request (RestClient.New New) = .panics := rfl

theorem f64roundNat_eq_of_le (a : Nat) (h : a ≤ 2 ^ 53) : f64roundNat a = a := by
  rcases lt_or_eq_of_le h with h1 | h1
  · unfold f64roundNat
    rw [if_pos h1]
  · subst h1
    decide

theorem f64roundInt_eq_of_le (n : Int) (h : n.natAbs ≤ 2 ^ 53) : f64roundInt n = n := by
  unfold f64roundInt
  rw [f64roundNat_eq_of_le _ h]
  split <;> omega

/-- C4 counterexample: the integer `2 ^ 53 + 1` FORM-encodes as the
decimal of the nearest `float64`, `9007199254740992`, not as its own
exact decimal representation. -/
theorem form_int_rounding_counterexample :
    formSting [GoValue.obj [("k", GoValue.int 9007199254740993)]] = .ok "k=9007199254740992"
    ∧ "k=9007199254740992" ≠ "k=" ++ toString (9007199254740993 : Int) := by
  refine ⟨rfl, ?_⟩
  decide

/-- C4 amended: an integer parameter value whose magnitude is at most
`2 ^ 53` FORM-encodes as its exact decimal string; wider integers are
altered by the `float64` round-trip `toMap` performs (see the
counterexample). -/
theorem form_int_exact_decimal (k : String) (n : Int) (h : n.natAbs ≤ 2 ^ 53) :
    formSting [GoValue.obj [(k, GoValue.int n)]] = .ok (encodeValues [(k, [toString n])]) := by
  have hr := f64roundInt_eq_of_le n h
  simp [formSting, toMap, toMapAux, sourceFields, decodeGo, decodeGoFields, insertAll,
        mapInsert, changeMapToURLValues, changeMapGo, valuesAdd, fmtF64, hr]

/-- Witness for the amended C4 at `n = 5`. -/
theorem form_int_exact_decimal_witness :
    formSting [GoValue.obj [("k", GoValue.int 5)]] =
      .ok (encodeValues [("k", [toString (5 : Int)])]) :=
  form_int_exact_decimal "k" 5 (by decide)

theorem formSting_of_changeMap (params : List GoValue) (m : List (String × JValue))
    (vs : List (String × List String)) (h1 : toMap params = .ok m)
    (h2 : changeMapToURLValues m = some vs) :
    formSting params = .ok (encodeValues vs) := by
  simp [formSting, h1, h2]

theorem changeMapGo_nil (vals : List (String × List String)) :
    changeMapGo vals [] = some vals := rfl

theorem changeMapGo_arr_str (vals : List (String × List String)) (k s : String)
    (xs : List JValue) (rest : List (String × JValue)) :
    changeMapGo vals ((k, JValue.arr (JValue.str s :: xs)) :: rest) =
      match addAllStr vals k (JValue.str s :: xs) with
      | none => none
      | some vals2 => changeMapGo vals2 rest := rfl

theorem changeMapGo_arr_bool (vals : List (String × List String)) (k : String) (b : Bool)
    (xs : List JValue) (rest : List (String × JValue)) :
    changeMapGo vals ((k, JValue.arr (JValue.bool b :: xs)) :: rest) =
      match addAllBool vals k (JValue.bool b :: xs) with
      | none => none
      | some vals2 => changeMapGo vals2 rest := rfl

theorem changeMapGo_arr_num (vals : List (String × List String)) (k : String) (n : Int)
    (xs : List JValue) (rest : List (String × JValue)) :
    changeMapGo vals ((k, JValue.arr (JValue.num n :: xs)) :: rest) =
      changeMapGo vals rest := rfl

theorem decodeGoList_map_str (ss : List String) :
    decodeGoList (ss.map GoValue.str) = ss.map JValue.str := by
  induction ss with
  | nil => rfl
  | cons s rest ih =>
    show JValue.str s :: decodeGoList (rest.map GoValue.str) = _
    rw [ih]
    rfl

theorem decodeGoList_map_bool (bs : List Bool) :
    decodeGoList (bs.map GoValue.bool) = bs.map JValue.bool := by
  induction bs with
  | nil => rfl
  | cons b rest ih =>
    show JValue.bool b :: decodeGoList (rest.map GoValue.bool) = _
    rw [ih]
    rfl

theorem addAllStr_strings (vals : List (String × List String)) (k : String) (ss : List String) :
    addAllStr vals k (ss.map JValue.str) =
      some (ss.foldl (fun v s => valuesAdd v k s) vals) := by
  induction ss generalizing vals with
  | nil => rfl
  | cons s rest ih => simp [addAllStr, ih]

theorem addAllBool_bools (vals : List (String × List String)) (k : String) (bs : List Bool) :
    addAllBool vals k (bs.map JValue.bool) =
      some (bs.foldl (fun v b => valuesAdd v k (fmtBool b)) vals) := by
  induction bs generalizing vals with
  | nil => rfl
  | cons b rest ih => simp [addAllBool, ih]

theorem foldl_valuesAdd_single (k : String) (ss : List String) (l : List String) :
    ss.foldl (fun v s => valuesAdd v k s) [(k, l)] = [(k, l ++ ss)] := by
  induction ss generalizing l with
  | nil => simp
  | cons s rest ih => simp [valuesAdd, ih]

theorem toMap_single_list (k : String) (xs : List GoValue) :
    toMap [GoValue.obj [(k, GoValue.list xs)]] =
      .ok [(k, JValue.arr (decodeGoList xs))] := rfl

theorem form_str_list (k : String) (ss : List String) :
    formSting [GoValue.obj [(k, GoValue.list (ss.map GoValue.str))]] =
      .ok (encodeValues [(k, ss)]) := by
  cases ss with
  | nil => rfl
  | cons s rest =>
    have htm := toMap_single_list k ((s :: rest).map GoValue.str)
    rw [decodeGoList_map_str] at htm
    refine formSting_of_changeMap _ _ _ htm ?_
    show changeMapGo [] [(k, JValue.arr (JValue.str s :: rest.map JValue.str))] = _
    rw [changeMapGo_arr_str]
    have h2 := addAllStr_strings [] k (s :: rest)
    simp only [List.map_cons] at h2
    rw [h2]
    show changeMapGo ((rest.foldl (fun v t => valuesAdd v k t) (valuesAdd [] k s))) [] = _
    rw [changeMapGo_nil]
    rw [show valuesAdd [] k s = [(k, [s])] from rfl, foldl_valuesAdd_single]
    rfl

theorem form_bool_list (k : String) (bs : List Bool) :
    formSting [GoValue.obj [(k, GoValue.list (bs.map GoValue.bool))]] =
      .ok (encodeValues [(k, bs.map fmtBool)]) := by
  cases bs with
  | nil => rfl
  | cons b rest =>
    have htm := toMap_single_list k ((b :: rest).map GoValue.bool)
    rw [decodeGoList_map_bool] at htm
    refine formSting_of_changeMap _ _ _ htm ?_
    show changeMapGo [] [(k, JValue.arr (JValue.bool b :: rest.map JValue.bool))] = _
    rw [changeMapGo_arr_bool]
    have h2 := addAllBool_bools [] k (b :: rest)
    simp only [List.map_cons] at h2
    rw [h2]
    show changeMapGo ((rest.foldl (fun v t => valuesAdd v k (fmtBool t)) (valuesAdd [] k (fmtBool b)))) [] = _
    rw [changeMapGo_nil]
    rw [← List.foldl_map fmtBool (fun v s => valuesAdd v k s) rest]
    rw [show valuesAdd [] k (fmtBool b) = [(k, [fmtBool b])] from rfl, foldl_valuesAdd_single]
    rfl

theorem form_int_list_dropped (k : String) (ns : List Int) :
    formSting [GoValue.obj [(k, GoValue.list (ns.map GoValue.int))]] = .ok "" := by
  cases ns with
  | nil => rfl
  | cons n rest => rfl

/-- C5 counterexample: a homogeneous list of integers is *not* encoded
as repeated key=value pairs; the whole key is silently dropped, because
its elements decode to `float64` values the `[]interface\x7b\x7d`
dispatch does not handle. -/
theorem form_int_list_counterexample :
    formSting [GoValue.obj [("ns", GoValue.list [GoValue.int 1, GoValue.int 2])]] = .ok ""
    ∧ ("" : String) ≠ "ns=1&ns=2" := by
  refine ⟨rfl, ?_⟩
  decide

/-- C5 amended: a homogeneous list of strings or of booleans
FORM-encodes as one repeated key=value pair per element in list order
(in particular `tags=[x,y]` yields `tags=x&tags=y`), but a list of
numbers is silently dropped: after the JSON round-trip its elements are
`float64`, which the `[]interface\x7b\x7d` element dispatch does not
handle. -/
theorem form_list_encoding_amended :
    (∀ (k : String) (ss : List String),
      formSting [GoValue.obj [(k, GoValue.list (ss.map GoValue.str))]] =
        .ok (encodeValues [(k, ss)]))
    ∧ (∀ (k : String) (bs : List Bool),
      formSting [GoValue.obj [(k, GoValue.list (bs.map GoValue.bool))]] =
        .ok (encodeValues [(k, bs.map fmtBool)]))
    ∧ formSting [GoValue.obj [("tags", GoValue.list [GoValue.str "x", GoValue.str "y"])]] =
        .ok "tags=x&tags=y"
    ∧ (∀ (k : String) (ns : List Int),
      formSting [GoValue.obj [(k, GoValue.list (ns.map GoValue.int))]] = .ok "") :=
  ⟨form_str_list, form_bool_list, rfl, form_int_list_dropped⟩

/-- C6: a response whose status is outside the success range yields an
error whose message is exactly the raw response body (the source in fact
errors on every status other than 200), whatever destination was or was
not supplied. -/
theorem receive_non_success_api_error (s : RestClient) (req : HttpRequest)
    (resp : HttpResponse) (value : Option JShape)
    (hreq : RestClient.Request s = .ok req)
    (hdo : s.httpClient req = .ok resp)
    (hst : resp.status < 200 ∨ 299 < resp.status) :
    RestClient.Receive s value = .err resp.body := by
  have h200 : resp.status ≠ 200 := by omega
  simp [RestClient.Receive, hreq, hdo, h200]

/-- Witness for C6: the 404 mock with body `\x7b"msg":"nope"\x7d` gives
an error carrying the raw body (so containing `nope`), with and without
a destination. -/
theorem receive_non_success_api_error_witness :
    RestClient.Receive client404 (some JShape.anyV) = .err "\x7b\"msg\":\"nope\"\x7d"
    ∧ RestClient.Receive client404 none = .err "\x7b\"msg\":\"nope\"\x7d"
    ∧ containsSub "\x7b\"msg\":\"nope\"\x7d" "nope" = true :=
  ⟨receive_non_success_api_error client404 ⟨"GET", ⟨"", "", "", "", ""⟩, none, []⟩
      ⟨404, "\x7b\"msg\":\"nope\"\x7d"⟩ (some JShape.anyV) rfl rfl (Or.inr (by decide)),
   receive_non_success_api_error client404 ⟨"GET", ⟨"", "", "", "", ""⟩, none, []⟩
      ⟨404, "\x7b\"msg\":\"nope\"\x7d"⟩ none rfl rfl (Or.inr (by decide)),
   by decide⟩

/-- C7: on a 200 response with a supplied destination, a body that is
well-formed JSON fitting the destination's shape is decoded into it and
no error is returned; a malformed body yields a decode error carrying
the raw body (`decodeErrMsg` is literally a prefix followed by the
body). -/
theorem receive_200_decodes (s : RestClient) (req : HttpRequest) (resp : HttpResponse)
    (sh : JShape)
    (hreq : RestClient.Request s = .ok req)
    (hdo : s.httpClient req = .ok resp)
    (hst : resp.status = 200) :
    (∀ v : JValue, jsonUnmarshal resp.body = some v → matchesShape sh v = true →
      RestClient.Receive s (some sh) = .ok (some v))
    ∧ (jsonUnmarshal resp.body = none →
      RestClient.Receive s (some sh) = .err (decodeErrMsg resp.body)) := by
  constructor
  · intro v hv hm
    simp [RestClient.Receive, hreq, hdo, hst, hv, hm]
  · intro hv
    simp [RestClient.Receive, hreq, hdo, hst, hv]

/-- Witness for C7: the 200 mock with body `\x7b"id":5\x7d` and a
destination of matching shape decodes the field `id` to `5`. -/
theorem receive_200_decodes_witness :
    RestClient.Receive client200 (some idShape) =
      .ok (some (JValue.obj [("id", JValue.num 5)])) :=
  (receive_200_decodes client200 ⟨"GET", ⟨"", "", "", "", ""⟩, none, []⟩
      ⟨200, "\x7b\"id\":5\x7d"⟩ idShape rfl rfl rfl).1
    (JValue.obj [("id", JValue.num 5)]) rfl rfl

/-- C8: if either the stored raw URL or the given path fails to parse,
`Path` returns the builder completely unchanged — a silent no-op with no
error (the return type offers no error channel). -/
theorem path_parse_failure_noop (s : RestClient) (path : String)
    (h : parseURL s.rawURL = none ∨ parseURL path = none) :
    RestClient.Path s path = s := by
  unfold RestClient.Path
  rcases h1 : parseURL s.rawURL with _ | u <;>
    rcases h2 : parseURL path with _ | p <;>
    simp_all

/-- Witness for C8: a path holding an ASCII control character fails to
parse and leaves a fresh builder untouched. -/
theorem path_parse_failure_noop_witness :
    RestClient.Path New "\x00" = New :=
  path_parse_failure_noop New "\x00" (Or.inr rfl)

theorem request_get_eq (s : RestClient) (u : URL) (str : String)
    (hu : parseURL s.rawURL = some u) (hs : serializeRun s = .ok str)
    (hm : s.method = "GET") :
    RestClient.Request s =
      .ok ⟨"GET", { u with rawQuery := str }, none, addHeaders [] s.header⟩ := by
  simp [RestClient.Request, hu, hs, hm]

theorem addParams_fields (s : RestClient) (kvs : List (String × GoValue)) :
    (addParams s kvs).method = s.method ∧ (addParams s kvs).rawURL = s.rawURL
    ∧ (addParams s kvs).serialize = s.serialize
    ∧ (addParams s kvs).header = s.header := by
  induction kvs generalizing s with
  | nil => exact ⟨rfl, rfl, rfl, rfl⟩
  | cons kv rest ih =>
    have h := ih (s.Param kv.1 kv.2)
    simpa [addParams, RestClient.Param] using h

/-- C10: a builder fresh from the package-level `New` defaults to method
GET and the FORM serializer, and building it (after any `Param` calls)
URL-encodes the merged parameters into the query string of the default
(empty) URL, with no body. -/
theorem new_defaults_form_get :
    New.method = "GET" ∧ New.serialize = some SerialMode.form
    ∧ ∀ (kvs : List (String × GoValue)) (str : String),
        formSting (addParams New kvs).data = .ok str →
        RestClient.Request (addParams New kvs) =
          .ok ⟨"GET", ⟨"", "", "", str, ""⟩, none, []⟩ := by
  refine ⟨rfl, rfl, ?_⟩
  intro kvs str h
  obtain ⟨hm, hr, hser, hh⟩ := addParams_fields New kvs
  have hs : serializeRun (addParams New kvs) = .ok str := by
    unfold serializeRun
    rw [hser]
    exact h
  have hp : parseURL (addParams New kvs).rawURL = some ⟨"", "", "", "", ""⟩ := by
    rw [hr]
    rfl
  have hreq := request_get_eq (addParams New kvs) ⟨"", "", "", "", ""⟩ str hp hs hm
  rw [hh] at hreq
  exact hreq

/-- Witness for C10 at one `Param` call. -/
theorem new_defaults_form_get_witness :
    RestClient.Request (addParams New [("a", GoValue.str "1")]) =
      .ok ⟨"GET", ⟨"", "", "", "a=1", ""⟩, none, []⟩ :=
  new_defaults_form_get.2.2 [("a", GoValue.str "1")] "a=1" rfl

theorem getD_snoc_lt {α : Type} (l : List α) (x d : α) (n : Nat) (h : n < l.length) :
    (l ++ [x]).getD n d = l.getD n d := by
  induction l generalizing n with
  | nil => simp at h
  | cons a t ih =>
    cases n with
    | zero => rfl
    | succ m =>
      simp only [List.length_cons, Nat.add_lt_add_iff_right] at h
      simpa [List.getD_cons_succ] using ih m h

theorem getD_snoc_len {α : Type} (l : List α) (x d : α) :
    (l ++ [x]).getD l.length d = x := by
  induction l with
  | nil => rfl
  | cons a t ih => simp [List.getD_cons_succ, ih]

theorem getD_set_ne {α : Type} (l : List α) (m n : Nat) (x d : α) (h : m ≠ n) :
    (l.set m x).getD n d = l.getD n d := by
  induction l generalizing m n with
  | nil => rfl
  | cons a t ih =>
    cases m with
    | zero =>
      cases n with
      | zero => exact absurd rfl h
      | succ n2 => rfl
    | succ m2 =>
      cases n with
      | zero => rfl
      | succ n2 => simpa [List.getD_cons_succ] using ih m2 n2 (by omega)

theorem clientOf_mem (st : Store) (i : Nat) (hi : i < st.clients.length) :
    clientOf st i ∈ st.clients := by
  unfold clientOf
  rw [List.getD_eq_getElem st.clients defClientObj hi]
  exact List.getElem_mem hi

theorem clientOf_cloneSt_orig (st : Store) (i : Nat) (hi : i < st.clients.length) :
    clientOf (cloneSt st i) i = clientOf st i := by
  unfold clientOf cloneSt Store.cloneNew
  exact getD_snoc_lt _ _ _ _ hi

theorem clientOf_cloneSt_clone (st : Store) (i : Nat) :
    clientOf (cloneSt st i) (cloneIx st i) =
      ⟨(clientOf st i).doerId, (clientOf st i).method, (clientOf st i).rawURL,
       st.headerMaps.length, (clientOf st i).data, none⟩ := by
  unfold clientOf cloneSt cloneIx Store.cloneNew
  exact getD_snoc_len _ _ _

theorem headerOf_updHeaderMap_other (st : Store) (r : Nat)
    (f : List (String × List String) → List (String × List String)) (i : Nat)
    (h : r ≠ (clientOf st i).headerRef) :
    headerOf (updHeaderMap st r f) i = headerOf st i := by
  unfold headerOf
  have hc : clientOf (updHeaderMap st r f) i = clientOf st i := rfl
  rw [hc]
  exact getD_set_ne _ _ _ _ _ h

theorem observe_updHeaderMap_other (st : Store) (r : Nat)
    (f : List (String × List String) → List (String × List String)) (i : Nat)
    (h : r ≠ (clientOf st i).headerRef) :
    observe (updHeaderMap st r f) i = observe st i := by
  unfold observe
  rw [headerOf_updHeaderMap_other st r f i h]
  rfl

theorem observe_setClients_other (st : Store) (m : Nat) (c : ClientObj) (n : Nat)
    (h : m ≠ n) :
    observe { st with clients := st.clients.set m c } n = observe st n := by
  unfold observe headerOf dataOf clientOf
  rw [getD_set_ne st.clients m n c defClientObj h]

/-- C9: the instance-level `New` produces a clone with a freshly
allocated header map and its own data list: every header mutation
(`Add`, `Set`, `SetBasicAuth`) and every parameter-source mutation
(`Param`, `ParamStruct`) applied to the clone leaves the original's
observable header multimap and parameter-source list unchanged, and vice
versa, while the executor reference is shared and the header-map
references differ. -/
theorem clone_mutation_independence (st : Store) (i : Nat)
    (hwf : ∀ c ∈ st.clients, c.headerRef < st.headerMaps.length)
    (hi : i < st.clients.length) :
    (∀ k v, observe (Store.Add (cloneSt st i) (cloneIx st i) k v) i = observe (cloneSt st i) i)
    ∧ (∀ k v, observe (Store.Set (cloneSt st i) (cloneIx st i) k v) i = observe (cloneSt st i) i)
    ∧ (∀ u p, observe (Store.SetBasicAuth (cloneSt st i) (cloneIx st i) u p) i
        = observe (cloneSt st i) i)
    ∧ (∀ k g, observe (Store.Param (cloneSt st i) (cloneIx st i) k g) i = observe (cloneSt st i) i)
    ∧ (∀ g, observe (Store.ParamStruct (cloneSt st i) (cloneIx st i) g) i = observe (cloneSt st i) i)
    ∧ (∀ k v, observe (Store.Add (cloneSt st i) i k v) (cloneIx st i)
        = observe (cloneSt st i) (cloneIx st i))
    ∧ (∀ k v, observe (Store.Set (cloneSt st i) i k v) (cloneIx st i)
        = observe (cloneSt st i) (cloneIx st i))
    ∧ (∀ u p, observe (Store.SetBasicAuth (cloneSt st i) i u p) (cloneIx st i)
        = observe (cloneSt st i) (cloneIx st i))
    ∧ (∀ k g, observe (Store.Param (cloneSt st i) i k g) (cloneIx st i)
        = observe (cloneSt st i) (cloneIx st i))
    ∧ (∀ g, observe (Store.ParamStruct (cloneSt st i) i g) (cloneIx st i)
        = observe (cloneSt st i) (cloneIx st i))
    ∧ (clientOf (cloneSt st i) (cloneIx st i)).doerId = (clientOf st i).doerId
    ∧ (clientOf (cloneSt st i) (cloneIx st i)).headerRef
        ≠ (clientOf (cloneSt st i) i).headerRef := by
  have hclone := clientOf_cloneSt_clone st i
  have horig := clientOf_cloneSt_orig st i hi
  have hrefi : (clientOf st i).headerRef < st.headerMaps.length :=
    hwf _ (clientOf_mem st i hi)
  have hne : st.headerMaps.length ≠ (clientOf (cloneSt st i) i).headerRef := by
    rw [horig]
    omega
  have hne2 : (clientOf st i).headerRef ≠ (clientOf (cloneSt st i) (cloneIx st i)).headerRef := by
    rw [hclone]
    show (clientOf st i).headerRef ≠ st.headerMaps.length
    omega
  have hij : (cloneIx st i) ≠ i := by
    show st.clients.length ≠ i
    omega
  have hij2 : i ≠ (cloneIx st i) := by
    show i ≠ st.clients.length
    omega
  refine ⟨?_, ?_, ?_, ?_, ?_, ?_, ?_, ?_, ?_, ?_, ?_, ?_⟩
  · intro k v
    unfold Store.Add
    rw [hclone]
    exact observe_updHeaderMap_other _ _ _ _ hne
  · intro k v
    unfold Store.Set
    rw [hclone]
    exact observe_updHeaderMap_other _ _ _ _ hne
  · intro u p
    unfold Store.SetBasicAuth Store.Set
    rw [hclone]
    exact observe_updHeaderMap_other _ _ _ _ hne
  · intro k g
    unfold Store.Param
    exact observe_setClients_other _ _ _ _ hij
  · intro g
    cases g with
    | null => rfl
    | str s => exact observe_setClients_other _ _ _ _ hij
    | bool b => exact observe_setClients_other _ _ _ _ hij
    | int n => exact observe_setClients_other _ _ _ _ hij
    | list xs => exact observe_setClients_other _ _ _ _ hij
    | obj fs => exact observe_setClients_other _ _ _ _ hij
  · intro k v
    unfold Store.Add
    rw [horig]
    exact observe_updHeaderMap_other _ _ _ _ hne2
  · intro k v
    unfold Store.Set
    rw [horig]
    exact observe_updHeaderMap_other _ _ _ _ hne2
  · intro u p
    unfold Store.SetBasicAuth Store.Set
    rw [horig]
    exact observe_updHeaderMap_other _ _ _ _ hne2
  · intro k g
    unfold Store.Param
    exact observe_setClients_other _ _ _ _ hij2
  · intro g
    cases g with
    | null => rfl
    | str s => exact observe_setClients_other _ _ _ _ hij2
    | bool b => exact observe_setClients_other _ _ _ _ hij2
    | int n => exact observe_setClients_other _ _ _ _ hij2
    | list xs => exact observe_setClients_other _ _ _ _ hij2
    | obj fs => exact observe_setClients_other _ _ _ _ hij2
  · rw [hclone]
  · rw [hclone, horig]
    show st.headerMaps.length ≠ (clientOf st i).headerRef
    omega

/-- Witness for C9 on a concrete one-builder store. -/
theorem clone_mutation_independence_witness :
    (∀ c ∈ store0.clients, c.headerRef < store0.headerMaps.length)
    ∧ 0 < store0.clients.length
    ∧ observe (Store.Add (cloneSt store0 0) (cloneIx store0 0) "X-Test" "1") 0
        = observe (cloneSt store0 0) 0
    ∧ (clientOf (cloneSt store0 0) (cloneIx store0 0)).headerRef
        ≠ (clientOf (cloneSt store0 0) 0).headerRef :=
  ⟨by decide, by decide,
   (clone_mutation_independence store0 0 (by decide) (by decide)).1 "X-Test" "1",
   (clone_mutation_independence store0 0 (by decide) (by decide)).2.2.2.2.2.2.2.2.2.2.2⟩

end Gorest
